import Mathlib

/-!
# Verification of `log/logger.go` (package `log`)

A shallow embedding of the logging facility: the level constants, the sink
(`LogHandle`), the dispatcher (`Logger`), the consumer loop and the stop path
as a labelled transition system, the rotation policy (`doRotate`, `findFile`)
and the two line builders (`buildLog`, `DefaultLogBuilder.BuildLog`).

Conventions of the embedding.
* `uint64` level masks are natural numbers; only `&` and `|` are applied to
  them, which never leave the 64-bit range.
* `int` is a 64-bit signed integer, embedded in `Int`.
* A buffered channel is the list of the values it holds, oldest first; the
  one-slot control channel is an `Option`.
* `*os.File` values are handle numbers; `*LogHandle` values are addresses into
  a heap of sinks.
* The clock, the file system and the call stack are inputs.
-/

namespace Log

/-! ## Constants -/

/-- Capacity of the line channel of a sink (`MAX_LOG_BUFFER_SIZE`). -/
def MAX_LOG_BUFFER_SIZE : Nat := 4096

def LOG_LEVEL_DEBUG : Nat := 1 <<< 0
def LOG_LEVEL_INFO : Nat := 1 <<< 1
def LOG_LEVEL_TRACE : Nat := 1 <<< 2
def LOG_LEVEL_NOTICE : Nat := 1 <<< 3
def LOG_LEVEL_WARNING : Nat := 1 <<< 4
def LOG_LEVEL_FATAL : Nat := 1 <<< 5

def LOG_CONTROL_ROTATE : Int := 1 <<< 0
def LOG_CONTROL_STOP : Int := 1 <<< 1

/-- The map `LOG_LEVEL_STRING`, as its list of entries. -/
def LOG_LEVEL_STRING_ENTRIES : List (Nat × String) :=
  [ (LOG_LEVEL_DEBUG, "[DEBUG]"),
    (LOG_LEVEL_INFO, "[INFO]"),
    (LOG_LEVEL_TRACE, "[TRACE]"),
    (LOG_LEVEL_NOTICE, "\x1b[34m[NOTICE]\x1b[0m"),
    (LOG_LEVEL_WARNING, "\x1b[33m[WARNING]\x1b[0m"),
    (LOG_LEVEL_FATAL, "\x1b[31m[FATAL]\x1b[0m") ]

/-- The lookup `LOG_LEVEL_STRING[level]`; a missing key yields the empty string. -/
def LOG_LEVEL_STRING (level : Nat) : String :=
  (LOG_LEVEL_STRING_ENTRIES.lookup level).getD ""

def NORMAL_LOG_FLAG : Nat :=
  LOG_LEVEL_DEBUG ||| LOG_LEVEL_INFO ||| LOG_LEVEL_TRACE ||| LOG_LEVEL_NOTICE

def WF_LOG_FLAG : Nat := LOG_LEVEL_WARNING ||| LOG_LEVEL_FATAL

/-- The six level constants, in declaration order. -/
def allLevels : List Nat :=
  [LOG_LEVEL_DEBUG, LOG_LEVEL_INFO, LOG_LEVEL_TRACE, LOG_LEVEL_NOTICE,
   LOG_LEVEL_WARNING, LOG_LEVEL_FATAL]

/-! ## Data model -/

structure logFileInfo where
  logPath : String
  logFile : String
  deriving DecidableEq, Repr

/-- The sink. `logBuffer` holds the queued lines oldest first, `logControl` is
the one-slot control channel, `file` the handle of the destination and
`waitGroup` the counter of the wait group. -/
structure LogHandle where
  logBuffer : List String
  logControl : Option Int
  file : Nat
  logFile : logFileInfo
  flag : Nat
  isRotate : Bool
  isRunning : Bool
  waitGroup : Nat
  deriving DecidableEq, Repr

/-- The heap of sinks: what each `*LogHandle` address points to. -/
abbrev Heap := Nat → LogHandle

/-- The dispatcher: the registered sink addresses, in registration order. -/
structure Logger where
  logHandleList : List Nat
  deriving DecidableEq, Repr

/-! ## Dispatcher -/

/-- `Logger.AddLogHandle`: append the sink to the registry. -/
def Logger.AddLogHandle (l : Logger) (logHandle : Nat) : Logger :=
  { logHandleList := l.logHandleList ++ [logHandle] }

/-- The channel send `logHandle.logBuffer <- logString` on the channel of
capacity `MAX_LOG_BUFFER_SIZE`: the sink with the line queued last, or `none`
when the channel is full and the send blocks. -/
def LogHandle.send (h : LogHandle) (logString : String) : Option LogHandle :=
  if h.logBuffer.length < MAX_LOG_BUFFER_SIZE then
    some { h with logBuffer := h.logBuffer ++ [logString] }
  else none

/-- The sink with `n` more copies of a line at the end of its channel. -/
def LogHandle.withQueued (h : LogHandle) (n : Nat) (logString : String) : LogHandle :=
  { h with logBuffer := h.logBuffer ++ List.replicate n logString }

/-- What one call of `writeLog` has done when no other goroutine acts: the
heap, the sends that went through, in order, each as the address of the
receiving sink and the line sent, and whether the call returned (`false`: it
is blocked in a send on a full channel). -/
structure WriteResult where
  heap : Heap
  sends : List (Nat × String)
  returned : Bool

/-- The loop of `Logger.writeLog` over the remaining registry entries. -/
def writeLogLoop (logLevel : Nat) (logString : String) : List Nat → Heap → WriteResult
  | [], heap => { heap := heap, sends := [], returned := true }
  | p :: rest, heap =>
    if ((heap p).flag &&& logLevel) ≠ 0 then
      match (heap p).send logString with
      | some h1 =>
        let r := writeLogLoop logLevel logString rest (Function.update heap p h1)
        { r with sends := (p, logString) :: r.sends }
      | none => { heap := heap, sends := [], returned := false }
    else
      writeLogLoop logLevel logString rest heap

/-- `Logger.writeLog`. -/
def Logger.writeLog (l : Logger) (heap : Heap) (logLevel : Nat) (logString : String) :
    WriteResult :=
  writeLogLoop logLevel logString l.logHandleList heap

/-- The registered sinks whose flag has a bit in common with the level, one
entry per registration, in registration order, each paired with the line. -/
def matchingSends (regs : List Nat) (heap : Heap) (logLevel : Nat) (logString : String) :
    List (Nat × String) :=
  (regs.filter (fun p => decide (((heap p).flag &&& logLevel) ≠ 0))).map
    (fun p => (p, logString))

/-- A heap in which the sink at address 0 takes the INFO level and its
channel is full, and every other sink takes the INFO level and its channel is
empty. -/
def fullHeap : Heap := fun p =>
  if p = 0 then
    { logBuffer := List.replicate MAX_LOG_BUFFER_SIZE "x\n", logControl := none, file := 1,
      logFile := { logPath := "", logFile := "" },
      flag := LOG_LEVEL_INFO, isRotate := false, isRunning := false, waitGroup := 0 }
  else
    { logBuffer := [], logControl := none, file := 2,
      logFile := { logPath := "", logFile := "" },
      flag := LOG_LEVEL_INFO, isRotate := false, isRunning := false, waitGroup := 0 }

/-- A sink as `CreateFileLogHandle` returns it: empty channels, not running. -/
def newHandle (file : Nat) (logPath logFile : String) (flag : Nat) (isRotate : Bool) :
    LogHandle :=
  { logBuffer := [], logControl := none, file := file,
    logFile := { logPath := logPath, logFile := logFile },
    flag := flag, isRotate := isRotate, isRunning := false, waitGroup := 0 }

/-- The heap after `init` has built its three sinks: the standard-output sink
at address 0, the normal file sink at address 1 and the warning/fatal file
sink at address 2. The handle numbers of the three destinations are inputs. -/
def initHeap (stdout normalFile wfFile : Nat) : Heap := fun p =>
  if p = 0 then
    { logBuffer := [], logControl := none, file := stdout,
      logFile := { logPath := "", logFile := "" },
      flag := NORMAL_LOG_FLAG ||| WF_LOG_FLAG, isRotate := false, isRunning := false,
      waitGroup := 0 }
  else if p = 1 then newHandle normalFile "./logs" "test.log" NORMAL_LOG_FLAG true
  else newHandle wfFile "./logs" "test.log.wf" WF_LOG_FLAG true

/-- The registry of `Log` after the three `AddLogHandle` calls of `init`. -/
def initLogger : Logger :=
  ((Logger.mk []).AddLogHandle 0 |>.AddLogHandle 1).AddLogHandle 2

/-! ## Sink: start, consumer loop, stop -/

/-- `LogHandle.startOutPut`. The result is the returned error (`none` is
`nil`), the sink afterwards, and the number of `run` goroutines spawned. -/
def LogHandle.startOutPut (h : LogHandle) : Option String × LogHandle × Nat :=
  if h.isRunning = true then
    (some "logHandle is alreay running", h, 0)
  else
    (none, { h with isRunning := true, waitGroup := h.waitGroup + 1 }, 1)

/-- Program counter of the `run` goroutine: not spawned, at the `select`,
holding a received line that is not yet written, or returned. -/
inductive RunPc where
  | notSpawned
  | atSelect
  | holding (logString : String)
  | exited
  deriving DecidableEq, Repr

/-- Program counter of the caller of `stopOutPut`: not called yet, blocked in
`waitGroup.Wait`, at the `select` of the flush loop, holding a received line,
before `file.Close`, and returned. -/
inductive StopPc where
  | notCalled
  | waiting
  | atSelect
  | holding (logString : String)
  | closing
  | returned
  deriving DecidableEq, Repr

/-- One sink together with its destination and the two threads that serve
it. `written` is the sequence of lines written to the destination. -/
structure Sink where
  handle : LogHandle
  written : List String
  closed : Bool
  runPc : RunPc
  stopPc : StopPc
  deriving DecidableEq, Repr

/-- The atomic steps of the producers, of `run` and of `stopOutPut`. -/
inductive Action where
  | enqueue (logString : String)
  | runRecv
  | runWrite
  | runControl
  | stopSend
  | stopWait
  | stopRecv
  | stopWrite
  | stopDefault
  | stopClose
  deriving DecidableEq, Repr

/-- The step function: `none` when the action is not enabled in the state.
* `enqueue`: the send `logBuffer <- logString`, enabled while the channel
  holds fewer than `MAX_LOG_BUFFER_SIZE` lines.
* `runRecv`, `runWrite`: the first case of the `select` of `run`, the receive
  and then the `file.Write`.
* `runControl`: the second case; on `LOG_CONTROL_STOP` the goroutine clears
  `isRunning`, leaves the loop and calls `waitGroup.Done`; `doRotate` touches
  neither the channel nor the lines already written.
* `stopSend`: `logControl <- LOG_CONTROL_STOP`, enabled while the slot is free.
* `stopWait`: `waitGroup.Wait` returns once the counter is zero.
* `stopRecv`, `stopWrite`, `stopDefault`: the flush loop; `default` is taken
  only when the channel is empty.
* `stopClose`: `file.Close` and return. -/
def step (s : Sink) : Action → Option Sink
  | .enqueue logString =>
    match s.handle.send logString with
    | some h1 => some { s with handle := h1 }
    | none => none
  | .runRecv =>
    match s.runPc, s.handle.logBuffer with
    | .atSelect, logString :: rest =>
      some { s with handle := { s.handle with logBuffer := rest },
                    runPc := .holding logString }
    | _, _ => none
  | .runWrite =>
    match s.runPc with
    | .holding logString =>
      some { s with written := s.written ++ [logString], runPc := .atSelect }
    | _ => none
  | .runControl =>
    match s.runPc, s.handle.logControl with
    | .atSelect, some controlFlag =>
      if controlFlag = LOG_CONTROL_STOP then
        some { s with handle := { s.handle with logControl := none, isRunning := false,
                                                waitGroup := s.handle.waitGroup - 1 },
                      runPc := .exited }
      else
        some { s with handle := { s.handle with logControl := none } }
    | _, _ => none
  | .stopSend =>
    match s.stopPc, s.handle.logControl with
    | .notCalled, none =>
      some { s with handle := { s.handle with logControl := some LOG_CONTROL_STOP },
                    stopPc := .waiting }
    | _, _ => none
  | .stopWait =>
    match s.stopPc with
    | .waiting => if s.handle.waitGroup = 0 then some { s with stopPc := .atSelect } else none
    | _ => none
  | .stopRecv =>
    match s.stopPc, s.handle.logBuffer with
    | .atSelect, logString :: rest =>
      some { s with handle := { s.handle with logBuffer := rest },
                    stopPc := .holding logString }
    | _, _ => none
  | .stopWrite =>
    match s.stopPc with
    | .holding logString =>
      some { s with written := s.written ++ [logString], stopPc := .atSelect }
    | _ => none
  | .stopDefault =>
    match s.stopPc, s.handle.logBuffer with
    | .atSelect, [] => some { s with stopPc := .closing }
    | _, _ => none
  | .stopClose =>
    match s.stopPc with
    | .closing => some { s with closed := true, stopPc := .returned }
    | _ => none

/-- Run a schedule: the actions in order, `none` as soon as one is not enabled. -/
def exec (s : Sink) (sched : List Action) : Option Sink :=
  sched.foldlM step s

/-- The sink right after `startOutPut` on a sink that `CreateFileLogHandle`
returned: the goroutine is spawned when `startOutPut` says so. -/
def startedSink (h : LogHandle) : Sink :=
  { handle := h.startOutPut.2.1, written := [], closed := false,
    runPc := if h.startOutPut.2.2 = 0 then .notSpawned else .atSelect,
    stopPc := .notCalled }

/-- The lines a schedule enqueues, in order. -/
def enqueued : List Action → List String
  | [] => []
  | .enqueue logString :: rest => logString :: enqueued rest
  | _ :: rest => enqueued rest

/-- Whether the action is a producer send. -/
def Action.isEnqueue : Action → Bool
  | .enqueue _ => true
  | _ => false

/-- No line is enqueued after stop begins: no `enqueue` follows the first
`stopSend` of the schedule. -/
def noEnqueueAfterStop : List Action → Bool
  | [] => true
  | .stopSend :: rest => rest.all (fun a => !a.isEnqueue)
  | _ :: rest => noEnqueueAfterStop rest

/-- The line a `run` goroutine has received and not yet written. -/
def RunPc.inHand : RunPc → List String
  | .holding logString => [logString]
  | _ => []

/-- The `run` goroutine is spawned and has not returned. -/
def RunPc.live : RunPc → Bool
  | .atSelect => true
  | .holding _ => true
  | _ => false

/-- The line the flush loop has received and not yet written. -/
def StopPc.inHand : StopPc → List String
  | .holding logString => [logString]
  | _ => []

/-- The caller of `stopOutPut` is past `waitGroup.Wait`. -/
def StopPc.flushing : StopPc → Bool
  | .notCalled => false
  | .waiting => false
  | _ => true

/-- The flush loop has taken its `default` case. -/
def StopPc.flushed : StopPc → Bool
  | .closing => true
  | .returned => true
  | _ => false

/-- The invariant of the sink with respect to the lines enqueued so far: the
lines written, then the line in the hand of whoever received one, then the
channel, are the enqueued lines in order; a live `run` goroutine is counted by
the wait group; the flush loop runs only once `run` has returned; the
destination is closed when `stopOutPut` has returned. -/
def Sink.Inv (s : Sink) (lines : List String) : Prop :=
  s.written ++ (s.runPc.inHand ++ (s.stopPc.inHand ++ s.handle.logBuffer)) = lines ∧
  (s.runPc.live = true → 1 ≤ s.handle.waitGroup) ∧
  (s.stopPc.flushing = true → s.runPc.live = false) ∧
  (s.stopPc = .returned → s.closed = true)

/-- The channel is empty once the flush loop has taken its `default` case. -/
def Sink.Drained (s : Sink) : Prop :=
  s.stopPc.flushed = true → s.handle.logBuffer = []

/-- A schedule in which each line is enqueued and then written by `run`. -/
def writeCycles : List String → List Action
  | [] => []
  | l :: rest => .enqueue l :: .runRecv :: .runWrite :: writeCycles rest

/-- A schedule that enqueues the lines one by one, lets `run` write each, and
then stops the sink. -/
def drainSchedule (lines : List String) : List Action :=
  writeCycles lines ++
    [Action.stopSend, Action.runControl, Action.stopWait, Action.stopDefault, Action.stopClose]

/-- A schedule of two lines in which stop begins while the second line is
still queued. -/
def demoSchedule : List Action :=
  [.enqueue "a\n", .enqueue "b\n", .runRecv, .stopSend, .runWrite, .runControl,
   .stopWait, .stopRecv, .stopWrite, .stopDefault, .stopClose]

/-- The state `demoSchedule` ends in. -/
def demoFinal : Sink :=
  { handle := newHandle 3 "./logs" "test.log" NORMAL_LOG_FLAG true,
    written := ["a\n", "b\n"], closed := true, runPc := .exited, stopPc := .returned }

/-! ## Rotation policy -/

/-- A wall-clock reading in a location whose offset does not change (such as
UTC): the fields that
`Year`, `Month`, `Day`, `Hour`, `Minute` and `Second` return. -/
structure Time where
  year : Int
  month : Nat
  day : Nat
  hour : Nat
  minute : Nat
  second : Nat
  deriving DecidableEq, Repr

/-- Leap years of the proleptic Gregorian calendar. -/
def isLeapYear (y : Int) : Bool :=
  y % 4 = 0 && (y % 100 != 0 || y % 400 = 0)

/-- Number of days of a month. -/
def daysIn (y : Int) (m : Nat) : Nat :=
  if m = 2 then (if isLeapYear y then 29 else 28)
  else if m = 4 ∨ m = 6 ∨ m = 9 ∨ m = 11 then 30
  else 31

/-- A reading that names a real instant. -/
def Time.valid (t : Time) : Bool :=
  1 ≤ t.month && t.month ≤ 12 && 1 ≤ t.day && t.day ≤ daysIn t.year t.month &&
  t.hour < 24 && t.minute < 60 && t.second < 60

/-- The library call `t.Add(-1 * time.Hour)`: the instant one hour earlier,
read in the same location, for a location whose offset does not change. -/
def Time.addMinusOneHour (t : Time) : Time :=
  if 1 ≤ t.hour then { t with hour := t.hour - 1 }
  else if 2 ≤ t.day then { t with day := t.day - 1, hour := 23 }
  else if 2 ≤ t.month then
    { t with month := t.month - 1, day := daysIn t.year (t.month - 1), hour := 23 }
  else { t with year := t.year - 1, month := 12, day := 31, hour := 23 }

/-- The library call `time.Date(year, month, day, hour, 0, 0, 0, loc)` on
fields that are in range (no normalisation takes place). -/
def Time.Date (year : Int) (month day hour : Nat) : Time :=
  { year := year, month := month, day := day, hour := hour, minute := 0, second := 0 }

/-- Left padding with zeros up to `width` characters. -/
def zeroPad (width : Nat) (digits : String) : String :=
  String.mk (List.replicate (width - digits.length) '0') ++ digits

/-- The helper `appendInt` of the library formatter: sign, then the decimal
digits padded with zeros to `width`. -/
def appendInt (x : Int) (width : Nat) : String :=
  if x < 0 then "-" ++ zeroPad width (toString x.natAbs)
  else zeroPad width (toString x.natAbs)

/-- The library call `t.Format("2006010215")`. -/
def Time.Format2006010215 (t : Time) : String :=
  appendInt t.year 4 ++ appendInt t.month 2 ++ appendInt t.day 2 ++ appendInt t.hour 2

/-- The constant `math.MinInt64`. -/
def MinInt64 : Int := -9223372036854775808

/-- The `for` loop of `findFile` from `index` on: `some` name when the body
returns, `none` when the loop condition `index < math.MinInt64` ends the loop.
`notExist path` says that `os.Lstat(path)` fails with a not-exist error. -/
def findFileLoop (notExist : String → Bool) (filePathName fileSuffix : String)
    (index : Int) : Option String :=
  if index < MinInt64 then
    let logFileWithNumber := filePathName ++ "." ++ fileSuffix ++ "." ++ toString index
    if notExist logFileWithNumber then some logFileWithNumber
    else findFileLoop notExist filePathName fileSuffix (index + 1)
  else none
termination_by (MinInt64 - index).toNat
decreasing_by omega

/-- `findFile`. -/
def findFile (notExist : String → Bool) (filePath fileName fileSuffix : String) : String :=
  let filePathName := filePath ++ "/" ++ fileName
  let logFile := filePathName ++ "." ++ fileSuffix
  if notExist logFile then logFile
  else
    match findFileLoop notExist filePathName fileSuffix 0 with
    | some logFileWithNumber => logFileWithNumber
    | none => logFile

/-- A file system in which `./logs/test.log.2024030509` exists and nothing
else does, as `os.Lstat` sees it. -/
def demoNotExist (path : String) : Bool :=
  path != "./logs/test.log.2024030509"

/-- The system calls the sink code makes. -/
inductive SysCall where
  | rename (oldpath newpath : String)
  | openFile (name : String)
  | close (file : Nat)
  deriving DecidableEq, Repr

/-- The part of the process state the sink code acts on: the table of file
handles (entry `f` tells whether handle `f` is open), the system calls made so
far in order, and the text printed to standard error. -/
structure World where
  files : List Bool
  calls : List SysCall
  stderr : List String
  deriving DecidableEq, Repr

def World.call (w : World) (c : SysCall) : World :=
  { w with calls := w.calls ++ [c] }

def World.eprint (w : World) (text : String) : World :=
  { w with stderr := w.stderr ++ [text] }

/-- A handle is open: it was handed out and not closed since. -/
def World.isOpen (w : World) (file : Nat) : Bool :=
  w.files.getD file false

/-- The handle a successful `os.OpenFile` returns. -/
def World.newFile (w : World) : Nat :=
  w.files.length

/-- The table after a successful `os.OpenFile`. -/
def World.opened (w : World) : World :=
  { w with files := w.files ++ [true] }

/-- The call `file.Close()`. -/
def World.close (w : World) (file : Nat) : World :=
  { (w.call (.close file)) with files := w.files.set file false }

/-- What the environment answers during one `doRotate`: the clock, the file
system as `os.Lstat` sees it, and the errors of `os.Rename` and `os.OpenFile`
(`none` is `nil`, `some text` an error with that message). -/
structure RotateEnv where
  now : Time
  notExist : String → Bool
  renameErr : Option String
  openErr : Option String

/-- An environment in which both the rename and the reopen fail. -/
def demoRotateEnv : RotateEnv :=
  { now := ⟨2024, 3, 5, 10, 5, 0⟩, notExist := fun _ => true,
    renameErr := some "permission denied", openErr := some "too many open files" }

/-- The rotation label `logSuffix` that `doRotate` computes at `nowTime`. -/
def rotateLabel (nowTime : Time) : String :=
  let lastHour := nowTime.addMinusOneHour.hour
  (Time.Date nowTime.year nowTime.month nowTime.day lastHour).Format2006010215

/-- The path `logFile` that `doRotate` renames from and reopens. -/
def rotateLivePath (h : LogHandle) : String :=
  h.logFile.logPath ++ "/" ++ h.logFile.logFile

/-- `LogHandle.doRotate`. -/
def LogHandle.doRotate (env : RotateEnv) (h : LogHandle) (w : World) : LogHandle × World :=
  if !h.isRotate then (h, w)
  else
    let logSuffix := rotateLabel env.now
    let logFileName := findFile env.notExist h.logFile.logPath h.logFile.logFile logSuffix
    let logFile := rotateLivePath h
    let w1 := w.call (.rename logFile logFileName)
    let w2 := match env.renameErr with
      | some err => w1.eprint ("[LOG_ROTATE] rename log file from " ++ logFile ++ " to " ++
          logFileName ++ " failed with error: " ++ err ++ "\n")
      | none => w1
    let w3 := w2.call (.openFile logFile)
    match env.openErr with
    | some err =>
      (h, w3.eprint ("[LOG_ROTATE] open log file " ++ logFile ++ " failed with error: " ++
          err ++ "\n"))
    | none =>
      let newFile := w3.newFile
      ({ h with file := newFile }, w3.opened.close h.file)

/-- The path `CreateFileLogHandle` passes to `os.OpenFile`. -/
def createLivePath (logPath logFile : String) : String :=
  logPath ++ logFile

/-- `CreateFileLogHandle`: `none` when the open fails and the function panics. -/
def CreateFileLogHandle (openErr : Option String) (w : World)
    (logPath logFile : String) (flag : Nat) (isRotate : Bool) : Option (LogHandle × World) :=
  let w1 := w.call (.openFile (createLivePath logPath logFile))
  match openErr with
  | some _ => none
  | none =>
    some (newHandle w1.newFile logPath logFile flag isRotate, w1.opened)

/-! ## Line builders -/

/-- The result of `runtime.Caller(stackDeep)`. -/
structure Caller where
  file : String
  line : Int
  ok : Bool
  deriving DecidableEq, Repr

/-- The second result of `path.Split`: what follows the last slash. -/
def pathSplitFile (p : String) : String :=
  String.mk ((p.data.reverse.takeWhile (fun c => c != '/')).reverse)

/-- The call `strings.Replace(msg, "\n", " ", -1)`. -/
def replaceNewlines (msg : String) : String :=
  String.mk (msg.data.map (fun c => if c = '\n' then ' ' else c))

/-- The bracketed call site `fileLine` of both builders. -/
def fileLine (caller : Caller) : String :=
  let file := if !caller.ok then "???" else caller.file
  let line := if !caller.ok then 0 else caller.line
  let filename := pathSplitFile file
  "[" ++ filename ++ ":" ++ toString line ++ "]"

/-- `buildLog`, on the message `fmt.Sprintf(format, v...)` rendered, the
formatted clock reading and the caller frame. -/
def buildLog (nowTime : String) (caller : Caller) (prefixString : String) (msg : String) :
    String :=
  let msg := replaceNewlines msg
  prefixString ++ " " ++ nowTime ++ " " ++ fileLine caller ++ " " ++ msg ++ "\n"

/-- The prefixes the `Logger` methods pass to `buildLog`: `Write`, then
`Print`, `Printf` and `Println`, then the six level methods. -/
def loggerPrefixes : List String :=
  [ "\x1b[36m[XORM]\x1b[0m", "\x1b[34m[KAFKA]\x1b[0m",
    LOG_LEVEL_STRING LOG_LEVEL_FATAL, LOG_LEVEL_STRING LOG_LEVEL_WARNING,
    LOG_LEVEL_STRING LOG_LEVEL_NOTICE, LOG_LEVEL_STRING LOG_LEVEL_INFO,
    LOG_LEVEL_STRING LOG_LEVEL_TRACE, LOG_LEVEL_STRING LOG_LEVEL_DEBUG ]

/-- The context tags `prefixStringArray`: one tag per entry of the map, in
iteration order. The entries are the keys and values as `fmt.Sprint` renders
them. -/
def contextTags (prefixKey : List (String × String)) : List String :=
  prefixKey.map (fun kv => "[" ++ kv.1 ++ ":" ++ kv.2 ++ "]")

/-- `DefaultLogBuilder.BuildLog`; a nil map is the empty list of entries. -/
def DefaultLogBuilder.BuildLog (nowTime : String) (caller : Caller) (logLevel : Nat)
    (prefixKey : List (String × String)) (msg : String) : String :=
  let msg := replaceNewlines msg
  let prefixString := " ".intercalate (contextTags prefixKey)
  LOG_LEVEL_STRING logLevel ++ " " ++ nowTime ++ " " ++ fileLine caller ++ " " ++
    prefixString ++ " " ++ msg ++ "\n"

/-- The text holds no line break. -/
def noNewline (text : String) : Prop :=
  '\n' ∉ text.data

instance (text : String) : Decidable (noNewline text) :=
  inferInstanceAs (Decidable ('\n' ∉ text.data))

/-- The number of line breaks of a line. -/
def newlineCount (line : String) : Nat :=
  line.data.count '\n'

/-- The instant one hour before `t`, truncated to the hour, rendered as
`YYYYMMDDHH`: the label the rotation is specified to use. -/
def specPreviousHourLabel (t : Time) : String :=
  let p := t.addMinusOneHour
  (Time.Date p.year p.month p.day p.hour).Format2006010215

/-- The name the rotation is specified to choose with `limit` numeric
suffixes on offer: the candidate when it is unused, else the candidate with
the smallest unused suffix below `limit`. -/
def specRotatedName (notExist : String → Bool) (candidate : String) (limit : Nat) :
    Option String :=
  if notExist candidate then some candidate
  else ((List.range limit).find? (fun n => notExist (candidate ++ "." ++ toString n))).map
    (fun n => candidate ++ "." ++ toString n)

/-! ## Dispatch: proofs -/

theorem send_some (h h1 : LogHandle) (logString : String) (hs : h.send logString = some h1) :
    h.logBuffer.length < MAX_LOG_BUFFER_SIZE ∧
      h1 = { h with logBuffer := h.logBuffer ++ [logString] } := by
  simp only [LogHandle.send] at hs
  split at hs
  · rename_i hlt
    injection hs with hs
    exact ⟨hlt, hs.symm⟩
  · cases hs

theorem send_none (h : LogHandle) (logString : String) (hs : h.send logString = none) :
    MAX_LOG_BUFFER_SIZE ≤ h.logBuffer.length := by
  simp only [LogHandle.send] at hs
  split at hs
  · cases hs
  · rename_i hge
    exact Nat.le_of_not_lt hge

theorem send_isSome (h : LogHandle) (logString : String)
    (hlt : h.logBuffer.length < MAX_LOG_BUFFER_SIZE) :
    h.send logString = some { h with logBuffer := h.logBuffer ++ [logString] } := by
  simp [LogHandle.send, hlt]

theorem update_send_flag (heap : Heap) (p q : Nat) (h1 : LogHandle) (logString : String)
    (hs : (heap p).send logString = some h1) :
    (Function.update heap p h1 q).flag = (heap q).flag := by
  by_cases hq : q = p
  · subst hq
    rw [Function.update_same, (send_some _ _ _ hs).2]
  · rw [Function.update_noteq hq]

theorem matchingSends_congr (regs : List Nat) (heap heap1 : Heap) (logLevel : Nat)
    (logString : String) (hflag : ∀ q, (heap1 q).flag = (heap q).flag) :
    matchingSends regs heap1 logLevel logString = matchingSends regs heap logLevel logString := by
  simp only [matchingSends, hflag]

theorem matchingSends_cons_pos (p : Nat) (rest : List Nat) (heap : Heap) (logLevel : Nat)
    (logString : String) (hp : ((heap p).flag &&& logLevel) ≠ 0) :
    matchingSends (p :: rest) heap logLevel logString =
      (p, logString) :: matchingSends rest heap logLevel logString := by
  simp [matchingSends, List.filter_cons, hp]

theorem matchingSends_cons_neg (p : Nat) (rest : List Nat) (heap : Heap) (logLevel : Nat)
    (logString : String) (hp : ¬ ((heap p).flag &&& logLevel) ≠ 0) :
    matchingSends (p :: rest) heap logLevel logString =
      matchingSends rest heap logLevel logString := by
  simp only [ne_eq, not_not] at hp
  simp [matchingSends, List.filter_cons, hp]

theorem writeLogLoop_skip (logLevel : Nat) (logString : String) (p : Nat) (rest : List Nat)
    (heap : Heap) (hp : ¬ ((heap p).flag &&& logLevel) ≠ 0) :
    writeLogLoop logLevel logString (p :: rest) heap =
      writeLogLoop logLevel logString rest heap := by
  rw [writeLogLoop, if_neg hp]

theorem writeLogLoop_block (logLevel : Nat) (logString : String) (p : Nat) (rest : List Nat)
    (heap : Heap) (hp : ((heap p).flag &&& logLevel) ≠ 0)
    (hs : (heap p).send logString = none) :
    writeLogLoop logLevel logString (p :: rest) heap =
      { heap := heap, sends := [], returned := false } := by
  rw [writeLogLoop, if_pos hp]
  simp only [hs]

theorem writeLogLoop_send (logLevel : Nat) (logString : String) (p : Nat) (rest : List Nat)
    (heap : Heap) (h1 : LogHandle) (hp : ((heap p).flag &&& logLevel) ≠ 0)
    (hs : (heap p).send logString = some h1) :
    writeLogLoop logLevel logString (p :: rest) heap =
      { heap := (writeLogLoop logLevel logString rest (Function.update heap p h1)).heap,
        sends := (p, logString) ::
          (writeLogLoop logLevel logString rest (Function.update heap p h1)).sends,
        returned :=
          (writeLogLoop logLevel logString rest (Function.update heap p h1)).returned } := by
  rw [writeLogLoop, if_pos hp]
  simp only [hs]

/-- The sends that went through are an initial part of the matching
registrations. -/
theorem writeLogLoop_sends_prefix (logLevel : Nat) (logString : String) (regs : List Nat) :
    ∀ heap : Heap, (writeLogLoop logLevel logString regs heap).sends <+:
      matchingSends regs heap logLevel logString := by
  induction regs with
  | nil => intro heap; simp [writeLogLoop, matchingSends]
  | cons p rest ih =>
    intro heap
    by_cases hp : ((heap p).flag &&& logLevel) ≠ 0
    · rw [matchingSends_cons_pos p rest heap logLevel logString hp]
      cases hs : (heap p).send logString with
      | none =>
        rw [writeLogLoop_block logLevel logString p rest heap hp hs]
        exact List.nil_prefix
      | some h1 =>
        rw [writeLogLoop_send logLevel logString p rest heap h1 hp hs]
        have h2 := ih (Function.update heap p h1)
        rw [matchingSends_congr rest heap _ logLevel logString
          (fun q => update_send_flag heap p q h1 logString hs)] at h2
        exact (List.prefix_cons_inj _).mpr h2
    · rw [writeLogLoop_skip logLevel logString p rest heap hp,
        matchingSends_cons_neg p rest heap logLevel logString hp]
      exact ih heap

/-- A sink whose flag has no bit in common with the level is left as it was. -/
theorem writeLogLoop_heap_other (logLevel : Nat) (logString : String) (regs : List Nat) :
    ∀ (heap : Heap) (q : Nat), ((heap q).flag &&& logLevel) = 0 →
      (writeLogLoop logLevel logString regs heap).heap q = heap q := by
  induction regs with
  | nil => intro heap q _; simp [writeLogLoop]
  | cons p rest ih =>
    intro heap q hq
    by_cases hp : ((heap p).flag &&& logLevel) ≠ 0
    · cases hs : (heap p).send logString with
      | none => rw [writeLogLoop_block logLevel logString p rest heap hp hs]
      | some h1 =>
        rw [writeLogLoop_send logLevel logString p rest heap h1 hp hs]
        have hqp : q ≠ p := fun e => hp (e ▸ hq)
        show (writeLogLoop logLevel logString rest (Function.update heap p h1)).heap q = heap q
        rw [ih (Function.update heap p h1) q
          (by rw [update_send_flag heap p q h1 logString hs]; exact hq),
          Function.update_noteq hqp]
    · rw [writeLogLoop_skip logLevel logString p rest heap hp]
      exact ih heap q hq

/-- When the call returns, every matching registration was sent to, and each
sink holds one more copy of the line per matching registration. -/
theorem writeLogLoop_returned (logLevel : Nat) (logString : String) (regs : List Nat) :
    ∀ heap : Heap, (writeLogLoop logLevel logString regs heap).returned = true →
      (writeLogLoop logLevel logString regs heap).sends =
        matchingSends regs heap logLevel logString ∧
      ∀ q, (writeLogLoop logLevel logString regs heap).heap q =
        (heap q).withQueued (if ((heap q).flag &&& logLevel) ≠ 0 then regs.count q else 0)
          logString := by
  induction regs with
  | nil => intro heap _; simp [writeLogLoop, matchingSends, LogHandle.withQueued]
  | cons p rest ih =>
    intro heap hret
    by_cases hp : ((heap p).flag &&& logLevel) ≠ 0
    · cases hs : (heap p).send logString with
      | none =>
        rw [writeLogLoop_block logLevel logString p rest heap hp hs] at hret
        cases hret
      | some h1 =>
        rw [writeLogLoop_send logLevel logString p rest heap h1 hp hs] at hret ⊢
        have h2 := ih (Function.update heap p h1) hret
        rw [matchingSends_congr rest heap _ logLevel logString
          (fun q => update_send_flag heap p q h1 logString hs)] at h2
        refine ⟨?_, ?_⟩
        · rw [matchingSends_cons_pos p rest heap logLevel logString hp]
          exact congrArg _ h2.1
        · intro q
          show (writeLogLoop logLevel logString rest (Function.update heap p h1)).heap q = _
          rw [h2.2 q, update_send_flag heap p q h1 logString hs]
          by_cases hq : q = p
          · subst hq
            rw [Function.update_same, (send_some _ _ _ hs).2]
            simp [hp, LogHandle.withQueued, List.replicate_succ]
          · have hne : ¬ p = q := fun h => hq h.symm
            simp [Function.update_noteq hq, List.count_cons, hne]
    · rw [writeLogLoop_skip logLevel logString p rest heap hp] at hret ⊢
      have h2 := ih heap hret
      refine ⟨?_, ?_⟩
      · rw [matchingSends_cons_neg p rest heap logLevel logString hp]
        exact h2.1
      · intro q
        rw [h2.2 q]
        by_cases hq : q = p
        · subst hq; simp [hp]
        · have hne : ¬ p = q := fun h => hq h.symm
          simp [List.count_cons, hne]

/-- The call returns when every matching sink has room for one line per
registration. -/
theorem writeLogLoop_room (logLevel : Nat) (logString : String) (regs : List Nat) :
    ∀ heap : Heap,
      (∀ q ∈ regs, ((heap q).flag &&& logLevel) ≠ 0 →
        (heap q).logBuffer.length + regs.count q ≤ MAX_LOG_BUFFER_SIZE) →
      (writeLogLoop logLevel logString regs heap).returned = true := by
  induction regs with
  | nil => intro heap _; simp [writeLogLoop]
  | cons p rest ih =>
    intro heap hroom
    by_cases hp : ((heap p).flag &&& logLevel) ≠ 0
    · have hpr := hroom p (List.mem_cons_self _ _) hp
      simp only [List.count_cons_self] at hpr
      have hs := send_isSome (heap p) logString (by omega)
      rw [writeLogLoop_send logLevel logString p rest heap _ hp hs]
      show (writeLogLoop logLevel logString rest _).returned = true
      apply ih
      intro q hq hqf
      rw [update_send_flag heap p q _ logString hs] at hqf
      have hqr := hroom q (List.mem_cons_of_mem _ hq) hqf
      by_cases hqp : q = p
      · subst hqp
        simp only [List.count_cons_self] at hqr
        simp only [Function.update_same, List.length_append, List.length_singleton]
        omega
      · have hne : ¬ p = q := fun h => hqp h.symm
        simp only [List.count_cons, beq_iff_eq, hne, if_false, Nat.add_zero] at hqr
        rw [Function.update_noteq hqp]
        exact hqr
    · rw [writeLogLoop_skip logLevel logString p rest heap hp]
      apply ih
      intro q hq hqf
      have hqr := hroom q (List.mem_cons_of_mem _ hq) hqf
      have hne : ¬ p = q := fun h => hp (h ▸ hqf)
      simp only [List.count_cons, beq_iff_eq, hne, if_false, Nat.add_zero] at hqr
      exact hqr

/-- A call that has not returned is blocked at a registered matching sink
whose channel is full. -/
theorem writeLogLoop_blocked (logLevel : Nat) (logString : String) (regs : List Nat) :
    ∀ heap : Heap, (writeLogLoop logLevel logString regs heap).returned = false →
      ∃ p ∈ regs, ((heap p).flag &&& logLevel) ≠ 0 ∧
        MAX_LOG_BUFFER_SIZE ≤
          ((writeLogLoop logLevel logString regs heap).heap p).logBuffer.length := by
  induction regs with
  | nil => intro heap h; simp [writeLogLoop] at h
  | cons p rest ih =>
    intro heap hret
    by_cases hp : ((heap p).flag &&& logLevel) ≠ 0
    · cases hs : (heap p).send logString with
      | none =>
        rw [writeLogLoop_block logLevel logString p rest heap hp hs]
        exact ⟨p, List.mem_cons_self _ _, hp, send_none _ _ hs⟩
      | some h1 =>
        rw [writeLogLoop_send logLevel logString p rest heap h1 hp hs] at hret ⊢
        obtain ⟨q, hq, hqf, hqlen⟩ := ih (Function.update heap p h1) hret
        rw [update_send_flag heap p q h1 logString hs] at hqf
        exact ⟨q, List.mem_cons_of_mem _ hq, hqf, hqlen⟩
    · rw [writeLogLoop_skip logLevel logString p rest heap hp] at hret ⊢
      obtain ⟨q, hq, hqf, hqlen⟩ := ih heap hret
      exact ⟨q, List.mem_cons_of_mem _ hq, hqf, hqlen⟩

theorem foldl_AddLogHandle (regs : List Nat) :
    ∀ l : Logger, (regs.foldl Logger.AddLogHandle l).logHandleList = l.logHandleList ++ regs := by
  induction regs with
  | nil => intro l; simp
  | cons p rest ih => intro l; simp [ih, Logger.AddLogHandle]

theorem count_matchingSends (regs : List Nat) (heap : Heap) (logLevel : Nat)
    (logString : String) (q : Nat) (hq : ((heap q).flag &&& logLevel) ≠ 0) :
    (matchingSends regs heap logLevel logString).count (q, logString) = regs.count q := by
  induction regs with
  | nil => rfl
  | cons p rest ih =>
    by_cases hp : ((heap p).flag &&& logLevel) ≠ 0
    · rw [matchingSends_cons_pos p rest heap logLevel logString hp]
      by_cases hpq : p = q
      · subst hpq; simp [ih]
      · have : ¬ (p, logString) = (q, logString) := fun h => hpq (by simpa using h)
        simp [List.count_cons, ih, hpq]
    · rw [matchingSends_cons_neg p rest heap logLevel logString hp]
      have hpq : ¬ p = q := fun h => hp (h ▸ hq)
      simp [List.count_cons, ih, hpq]

theorem mem_matchingSends (regs : List Nat) (heap : Heap) (logLevel : Nat)
    (logString s : String) (q : Nat)
    (hm : (q, s) ∈ matchingSends regs heap logLevel logString) :
    q ∈ regs ∧ ((heap q).flag &&& logLevel) ≠ 0 := by
  simp only [matchingSends, List.mem_map, List.mem_filter, decide_eq_true_eq] at hm
  obtain ⟨p, ⟨hp, hpf⟩, hpq⟩ := hm
  simp only [Prod.mk.injEq] at hpq
  rw [← hpq.1]
  exact ⟨hp, hpf⟩

/-- Counterexample to C1: a sink registered twice is sent the line twice by one
call of `writeLog`. -/
theorem writeLog_registered_twice :
    ((Logger.mk []).AddLogHandle 0 |>.AddLogHandle 0).logHandleList = [0, 0] ∧
    ((initHeap 1 3 4 0).flag &&& LOG_LEVEL_INFO) ≠ 0 ∧
    (Logger.writeLog ((Logger.mk []).AddLogHandle 0 |>.AddLogHandle 0) (initHeap 1 3 4)
      LOG_LEVEL_INFO "x\n").returned = true ∧
    (Logger.writeLog ((Logger.mk []).AddLogHandle 0 |>.AddLogHandle 0) (initHeap 1 3 4)
      LOG_LEVEL_INFO "x\n").sends = [(0, "x\n"), (0, "x\n")] ∧
    ((Logger.writeLog ((Logger.mk []).AddLogHandle 0 |>.AddLogHandle 0) (initHeap 1 3 4)
      LOG_LEVEL_INFO "x\n").heap 0).logBuffer = ["x\n", "x\n"] := by
  decide

/-- On a matching sink whose channel is full the call blocks in the send, and
the sinks registered after it are sent nothing. -/
theorem writeLog_blocks_on_full :
    (Logger.writeLog (Logger.mk [0, 1]) fullHeap LOG_LEVEL_INFO "y\n").returned = false ∧
    (Logger.writeLog (Logger.mk [0, 1]) fullHeap LOG_LEVEL_INFO "y\n").sends = [] ∧
    ((Logger.writeLog (Logger.mk [0, 1]) fullHeap LOG_LEVEL_INFO "y\n").heap 0).logBuffer.length
      = MAX_LOG_BUFFER_SIZE ∧
    ((Logger.writeLog (Logger.mk [0, 1]) fullHeap LOG_LEVEL_INFO "y\n").heap 1).logBuffer = [] := by
  have hp : ((fullHeap 0).flag &&& LOG_LEVEL_INFO) ≠ 0 := by decide
  have hs : (fullHeap 0).send "y\n" = none := by
    simp [LogHandle.send, fullHeap]
  have hw : Logger.writeLog (Logger.mk [0, 1]) fullHeap LOG_LEVEL_INFO "y\n" =
      { heap := fullHeap, sends := [], returned := false } :=
    writeLogLoop_block LOG_LEVEL_INFO "y\n" 0 [1] fullHeap hp hs
  rw [hw]
  refine ⟨rfl, rfl, ?_, rfl⟩
  simp [fullHeap]

/-- C1 (amended). `Logger.writeLog` dispatch. For every sequence of
`AddLogHandle` calls, every heap of sinks, every level and every line: the
registry holds the sinks in the order of the calls; the sends `writeLog` makes
are an initial part of the registrations whose sink has a bit of its flag in
common with the level, in registration order; a sink whose flag has no bit in
common with the level is sent nothing and is unchanged; when `writeLog`
returns it has sent the line once for every such registration, so a sink
gains the line in its channel once per registration (exactly once when it is
registered once) and keeps every other field; `writeLog` returns whenever
every matching sink has room in its channel for one line per registration;
and when it has not returned it is blocked at a matching sink whose channel
is full. -/
theorem writeLog_dispatch (regs : List Nat) (heap : Heap) (logLevel : Nat)
    (logString : String) :
    let l := regs.foldl Logger.AddLogHandle (Logger.mk [])
    l.logHandleList = regs ∧
    (l.writeLog heap logLevel logString).sends <+:
      (regs.filter (fun p => decide (((heap p).flag &&& logLevel) ≠ 0))).map
        (fun p => (p, logString)) ∧
    (∀ q, ((heap q).flag &&& logLevel) = 0 →
      ((∀ s, (q, s) ∉ (l.writeLog heap logLevel logString).sends) ∧
       (l.writeLog heap logLevel logString).heap q = heap q)) ∧
    ((l.writeLog heap logLevel logString).returned = true →
      (l.writeLog heap logLevel logString).sends =
        (regs.filter (fun p => decide (((heap p).flag &&& logLevel) ≠ 0))).map
          (fun p => (p, logString)) ∧
      ∀ q, ((heap q).flag &&& logLevel) ≠ 0 →
        ((l.writeLog heap logLevel logString).sends.count (q, logString) = regs.count q ∧
         (l.writeLog heap logLevel logString).heap q =
          (heap q).withQueued (regs.count q) logString ∧
         (regs.count q = 1 →
          (l.writeLog heap logLevel logString).sends.count (q, logString) = 1 ∧
          ((l.writeLog heap logLevel logString).heap q).logBuffer =
            (heap q).logBuffer ++ [logString]))) ∧
    ((∀ q ∈ regs, ((heap q).flag &&& logLevel) ≠ 0 →
        (heap q).logBuffer.length + regs.count q ≤ MAX_LOG_BUFFER_SIZE) →
      (l.writeLog heap logLevel logString).returned = true) ∧
    ((l.writeLog heap logLevel logString).returned = false →
      ∃ p ∈ regs, ((heap p).flag &&& logLevel) ≠ 0 ∧
        MAX_LOG_BUFFER_SIZE ≤
          ((l.writeLog heap logLevel logString).heap p).logBuffer.length) := by
  intro l
  have hl : l.logHandleList = regs := by
    simp [l, foldl_AddLogHandle]
  have hw : l.writeLog heap logLevel logString = writeLogLoop logLevel logString regs heap := by
    rw [Logger.writeLog, hl]
  rw [hw]
  have hpre := writeLogLoop_sends_prefix logLevel logString regs heap
  refine ⟨hl, hpre, ?_, ?_, writeLogLoop_room logLevel logString regs heap,
    writeLogLoop_blocked logLevel logString regs heap⟩
  · intro q hq
    refine ⟨?_, writeLogLoop_heap_other logLevel logString regs heap q hq⟩
    intro s hmem
    have hm := mem_matchingSends regs heap logLevel logString s q (hpre.subset hmem)
    exact hm.2 hq
  · intro hret
    obtain ⟨hsends, hheap⟩ := writeLogLoop_returned logLevel logString regs heap hret
    refine ⟨hsends, ?_⟩
    intro q hq
    have hcount : (writeLogLoop logLevel logString regs heap).sends.count (q, logString) =
        regs.count q := by
      rw [hsends]
      exact count_matchingSends regs heap logLevel logString q hq
    have hq2 : (writeLogLoop logLevel logString regs heap).heap q =
        (heap q).withQueued (regs.count q) logString := by
      rw [hheap q, if_pos hq]
    refine ⟨hcount, hq2, ?_⟩
    intro hone
    refine ⟨by rw [hcount, hone], ?_⟩
    rw [hq2, hone]
    rfl

/-- C10. Default routing partitions the levels. The six level constants are
the pairwise distinct single bits 1, 2, 4, 8, 16, 32; `NORMAL_LOG_FLAG` and
`WF_LOG_FLAG` are disjoint and together are the union of the six; on the
registry of `init` (standard output, normal file, warning/fatal file, in that
order) `writeLog` at a level returns and sends the line to the
standard-output sink and to exactly one file sink, the normal one for DEBUG,
INFO, TRACE and NOTICE, the warning/fatal one for WARNING and FATAL; the line
is then the one line in the channel of each of the two sinks, and the channel
of the other file sink is empty. -/
theorem default_routing_partitions (stdout normalFile wfFile : Nat) (logString : String) :
    allLevels = [1, 2, 4, 8, 16, 32] ∧ allLevels.Nodup ∧
    (∀ L ∈ allLevels, ∃ k, L = 2 ^ k) ∧
    NORMAL_LOG_FLAG &&& WF_LOG_FLAG = 0 ∧
    NORMAL_LOG_FLAG ||| WF_LOG_FLAG = allLevels.foldr (fun a b => a ||| b) 0 ∧
    initLogger.logHandleList = [0, 1, 2] ∧
    (∀ L ∈ allLevels,
      (initLogger.writeLog (initHeap stdout normalFile wfFile) L logString).sends =
        if L = LOG_LEVEL_DEBUG ∨ L = LOG_LEVEL_INFO ∨ L = LOG_LEVEL_TRACE ∨ L = LOG_LEVEL_NOTICE
        then [(0, logString), (1, logString)]
        else [(0, logString), (2, logString)]) ∧
    (∀ L ∈ allLevels,
      (L = LOG_LEVEL_DEBUG ∨ L = LOG_LEVEL_INFO ∨ L = LOG_LEVEL_TRACE ∨ L = LOG_LEVEL_NOTICE) ↔
        ¬ (L = LOG_LEVEL_WARNING ∨ L = LOG_LEVEL_FATAL)) ∧
    (∀ L ∈ allLevels,
      (initLogger.writeLog (initHeap stdout normalFile wfFile) L logString).returned = true ∧
      ((initLogger.writeLog (initHeap stdout normalFile wfFile) L logString).heap 0).logBuffer =
        [logString] ∧
      ((initLogger.writeLog (initHeap stdout normalFile wfFile) L logString).heap 1).logBuffer =
        (if L = LOG_LEVEL_DEBUG ∨ L = LOG_LEVEL_INFO ∨ L = LOG_LEVEL_TRACE ∨
            L = LOG_LEVEL_NOTICE then [logString] else []) ∧
      ((initLogger.writeLog (initHeap stdout normalFile wfFile) L logString).heap 2).logBuffer =
        (if L = LOG_LEVEL_DEBUG ∨ L = LOG_LEVEL_INFO ∨ L = LOG_LEVEL_TRACE ∨
            L = LOG_LEVEL_NOTICE then [] else [logString])) := by
  have hreg : initLogger.logHandleList = [0, 1, 2] := by decide
  have hflag : ∀ p, (initHeap stdout normalFile wfFile p).flag =
      if p = 0 then 63 else if p = 1 then 15 else 48 := by
    intro p
    unfold initHeap
    split_ifs <;> rfl
  have hbuf : ∀ p, (initHeap stdout normalFile wfFile p).logBuffer = [] := by
    intro p
    unfold initHeap
    split_ifs <;> rfl
  have hret : ∀ L, (initLogger.writeLog (initHeap stdout normalFile wfFile) L
      logString).returned = true := by
    intro L
    rw [Logger.writeLog, hreg]
    apply writeLogLoop_room
    intro q hq _
    rw [hbuf q]
    simp only [List.mem_cons, List.mem_singleton, List.not_mem_nil, or_false] at hq
    rcases hq with h | h | h <;> subst h <;> decide
  have hfilt : ∀ M ∈ allLevels,
      List.filter (fun p => decide (((if p = 0 then 63 else if p = 1 then 15 else 48) &&& M)
        ≠ 0)) [0, 1, 2] =
      if M = LOG_LEVEL_DEBUG ∨ M = LOG_LEVEL_INFO ∨ M = LOG_LEVEL_TRACE ∨ M = LOG_LEVEL_NOTICE
      then [0, 1] else [0, 2] := by decide
  have hcnt : ∀ M ∈ allLevels,
      (if ((63 : Nat) &&& M) ≠ 0 then List.count 0 [0, 1, 2] else 0) = 1 ∧
      (if ((15 : Nat) &&& M) ≠ 0 then List.count 1 [0, 1, 2] else 0) =
        (if M = LOG_LEVEL_DEBUG ∨ M = LOG_LEVEL_INFO ∨ M = LOG_LEVEL_TRACE ∨
          M = LOG_LEVEL_NOTICE then 1 else 0) ∧
      (if ((48 : Nat) &&& M) ≠ 0 then List.count 2 [0, 1, 2] else 0) =
        (if M = LOG_LEVEL_DEBUG ∨ M = LOG_LEVEL_INFO ∨ M = LOG_LEVEL_TRACE ∨
          M = LOG_LEVEL_NOTICE then 0 else 1) := by decide
  refine ⟨by decide, by decide, ?_, by decide, by decide, by decide, ?_, by decide, ?_⟩
  · intro L hL
    simp only [allLevels, List.mem_cons, List.mem_singleton, List.not_mem_nil, or_false] at hL
    rcases hL with h | h | h | h | h | h
    · exact ⟨0, h⟩
    · exact ⟨1, h⟩
    · exact ⟨2, h⟩
    · exact ⟨3, h⟩
    · exact ⟨4, h⟩
    · exact ⟨5, h⟩
  · intro L hL
    have h1 := hret L
    rw [Logger.writeLog, hreg] at h1 ⊢
    rw [(writeLogLoop_returned L logString [0, 1, 2] _ h1).1, matchingSends]
    simp only [hflag]
    rw [hfilt L hL]
    split_ifs <;> rfl
  · intro L hL
    have h1 := hret L
    refine ⟨h1, ?_⟩
    rw [Logger.writeLog, hreg] at h1 ⊢
    have h2 := (writeLogLoop_returned L logString [0, 1, 2] _ h1).2
    obtain ⟨c0, c1, c2⟩ := hcnt L hL
    refine ⟨?_, ?_, ?_⟩
    · rw [h2 0, hflag 0]
      simp only [if_true, LogHandle.withQueued, hbuf]
      rw [c0]
      rfl
    · rw [h2 1, hflag 1]
      simp only [LogHandle.withQueued, hbuf, if_true, one_ne_zero, if_false]
      rw [c1]
      split_ifs <;> rfl
    · rw [h2 2, hflag 2]
      simp only [LogHandle.withQueued, hbuf, if_true, OfNat.ofNat_ne_zero, OfNat.ofNat_ne_one,
        if_false]
      rw [c2]
      split_ifs <;> rfl

/-- C6. Double start is a usage error. On a sink that is not running
`startOutPut` returns nil, sets `isRunning`, adds one to the wait group and
spawns one `run` goroutine, changing nothing else; on a running sink it
returns the error, spawns nothing and leaves the sink as it was; so two
starts in a row leave one consumer registered. -/
theorem startOutPut_double_start (h : LogHandle) :
    (h.isRunning = false →
      h.startOutPut = (none, { h with isRunning := true, waitGroup := h.waitGroup + 1 }, 1)) ∧
    (h.isRunning = true →
      h.startOutPut.1 = some "logHandle is alreay running" ∧ h.startOutPut.2.1 = h ∧
      h.startOutPut.2.2 = 0) ∧
    (h.isRunning = false →
      (h.startOutPut.2.1.startOutPut).1 ≠ none ∧
      (h.startOutPut.2.1.startOutPut).2.1 = h.startOutPut.2.1 ∧
      (h.startOutPut.2.1.startOutPut).2.1.waitGroup = h.waitGroup + 1 ∧
      h.startOutPut.2.2 + (h.startOutPut.2.1.startOutPut).2.2 = 1) := by
  refine ⟨?_, ?_, ?_⟩
  · intro hr; simp [LogHandle.startOutPut, hr]
  · intro hr; simp [LogHandle.startOutPut, hr]
  · intro hr; simp [LogHandle.startOutPut, hr]


/-! ## Drain on stop: proofs -/

theorem exec_cons (s : Sink) (a : Action) (rest : List Action) :
    exec s (a :: rest) = (step s a).bind (fun s1 => exec s1 rest) := by
  simp [exec, List.foldlM_cons, Option.bind_eq_bind]

theorem exec_nil (s : Sink) : exec s [] = some s := rfl

/-- One step keeps the invariant, with the enqueued line added. -/
theorem step_inv (s s1 : Sink) (a : Action) (lines : List String)
    (hinv : s.Inv lines) (hstep : step s a = some s1) : s1.Inv (lines ++ enqueued [a]) := by
  obtain ⟨h1, h2, h3, h4⟩ := hinv
  cases a with
  | enqueue logString =>
    simp only [step] at hstep
    split at hstep
    · rename_i h1new hsend
      injection hstep with hstep
      subst hstep
      simp only [LogHandle.send] at hsend
      split at hsend
      · injection hsend with hsend
        subst hsend
        refine ⟨?_, ?_, h3, h4⟩
        · simp [enqueued, ← h1]
        · simpa using h2
      · cases hsend
    · cases hstep
  | runRecv =>
    simp only [step] at hstep
    split at hstep
    · rename_i logString rest hpc hbuf
      injection hstep with hstep
      subst hstep
      refine ⟨?_, ?_, ?_, h4⟩
      · have hs : s.stopPc.inHand = [] := by
          cases hsp : s.stopPc <;> simp_all [StopPc.inHand, StopPc.flushing, RunPc.live]
        simp [enqueued, RunPc.inHand, ← h1, hpc, hbuf, hs]
      · simpa [RunPc.live, hpc] using h2
      · intro hf; have := h3 hf; simp [hpc, RunPc.live] at this
    · cases hstep
  | runWrite =>
    simp only [step] at hstep
    split at hstep
    · rename_i logString hpc
      injection hstep with hstep
      subst hstep
      refine ⟨?_, ?_, ?_, h4⟩
      · simp [enqueued, RunPc.inHand, ← h1, hpc]
      · simpa [RunPc.live, hpc] using h2
      · intro hf; have := h3 hf; simp [hpc, RunPc.live] at this
    · cases hstep
  | runControl =>
    simp only [step] at hstep
    split at hstep
    · rename_i controlFlag hpc hctl
      split at hstep
      · injection hstep with hstep
        subst hstep
        refine ⟨?_, ?_, ?_, h4⟩
        · simp [enqueued, RunPc.inHand, ← h1, hpc]
        · simp [RunPc.live]
        · intro _; simp [RunPc.live]
      · injection hstep with hstep
        subst hstep
        refine ⟨?_, ?_, h3, h4⟩
        · simp [enqueued, ← h1]
        · simpa using h2
    · cases hstep
  | stopSend =>
    simp only [step] at hstep
    split at hstep
    · rename_i hpc hctl
      injection hstep with hstep
      subst hstep
      refine ⟨?_, ?_, ?_, ?_⟩
      · simp [enqueued, StopPc.inHand, ← h1, hpc]
      · simpa using h2
      · simp [StopPc.flushing]
      · simp
    · cases hstep
  | stopWait =>
    simp only [step] at hstep
    split at hstep
    · rename_i hpc
      split at hstep
      · rename_i hwg
        injection hstep with hstep
        subst hstep
        refine ⟨?_, ?_, ?_, ?_⟩
        · simp [enqueued, StopPc.inHand, ← h1, hpc]
        · simpa using h2
        · intro _
          cases hl : s.runPc.live
          · rfl
          · have := h2 hl; omega
        · simp
      · cases hstep
    · cases hstep
  | stopRecv =>
    simp only [step] at hstep
    split at hstep
    · rename_i logString rest hpc hbuf
      injection hstep with hstep
      subst hstep
      have hl : s.runPc.live = false := h3 (by simp [hpc, StopPc.flushing])
      refine ⟨?_, ?_, ?_, ?_⟩
      · simp [enqueued, StopPc.inHand, ← h1, hpc, hbuf]
      · simp [hl]
      · intro _; exact hl
      · simp
    · cases hstep
  | stopWrite =>
    simp only [step] at hstep
    split at hstep
    · rename_i logString hpc
      injection hstep with hstep
      subst hstep
      have hl : s.runPc.live = false := h3 (by simp [hpc, StopPc.flushing])
      have hr : s.runPc.inHand = [] := by
        cases hrp : s.runPc <;> simp_all [RunPc.inHand, RunPc.live]
      refine ⟨?_, ?_, ?_, ?_⟩
      · simp [enqueued, StopPc.inHand, ← h1, hpc, hr]
      · simp [hl]
      · intro _; exact hl
      · simp
    · cases hstep
  | stopDefault =>
    simp only [step] at hstep
    split at hstep
    · rename_i hpc hbuf
      injection hstep with hstep
      subst hstep
      have hl : s.runPc.live = false := h3 (by simp [hpc, StopPc.flushing])
      refine ⟨?_, ?_, ?_, ?_⟩
      · simp [enqueued, StopPc.inHand, ← h1, hpc, hbuf]
      · simp [hl]
      · intro _; exact hl
      · simp
    · cases hstep
  | stopClose =>
    simp only [step] at hstep
    split at hstep
    · rename_i hpc
      injection hstep with hstep
      subst hstep
      have hl : s.runPc.live = false := h3 (by simp [hpc, StopPc.flushing])
      refine ⟨?_, ?_, ?_, ?_⟩
      · simp [enqueued, StopPc.inHand, ← h1, hpc]
      · simp [hl]
      · intro _; exact hl
      · simp
    · cases hstep

theorem enqueued_cons (a : Action) (rest : List Action) :
    enqueued (a :: rest) = enqueued [a] ++ enqueued rest := by
  cases a <;> simp [enqueued]

/-- A schedule keeps the invariant, with the lines it enqueues added. -/
theorem exec_inv (sched : List Action) :
    ∀ (s s1 : Sink) (lines : List String), s.Inv lines → exec s sched = some s1 →
      s1.Inv (lines ++ enqueued sched) := by
  induction sched with
  | nil =>
    intro s s1 lines hinv hexec
    rw [exec_nil] at hexec
    injection hexec with hexec
    subst hexec
    simpa [enqueued] using hinv
  | cons a rest ih =>
    intro s s1 lines hinv hexec
    rw [exec_cons] at hexec
    cases hstep : step s a with
    | none => rw [hstep] at hexec; cases hexec
    | some s2 =>
      rw [hstep] at hexec
      have h2 := ih s2 s1 _ (step_inv s s2 a lines hinv hstep) hexec
      rw [enqueued_cons, ← List.append_assoc]
      exact h2

/-- A step other than a producer send keeps the channel empty once the flush
loop has seen it empty. -/
theorem step_drained (s s1 : Sink) (a : Action) (hd : s.Drained)
    (ha : a.isEnqueue = false) (hstep : step s a = some s1) : s1.Drained := by
  unfold Sink.Drained at *
  cases a with
  | enqueue logString => simp [Action.isEnqueue] at ha
  | runRecv =>
    simp only [step] at hstep
    split at hstep
    · rename_i logString rest hpc hbuf
      injection hstep with hstep
      subst hstep
      intro hf
      have := hd hf
      simp [hbuf] at this
    · cases hstep
  | runWrite =>
    simp only [step] at hstep
    split at hstep
    · injection hstep with hstep
      subst hstep
      exact hd
    · cases hstep
  | runControl =>
    simp only [step] at hstep
    split at hstep
    · split at hstep <;>
      · injection hstep with hstep
        subst hstep
        exact hd
    · cases hstep
  | stopSend =>
    simp only [step] at hstep
    split at hstep
    · injection hstep with hstep
      subst hstep
      simp [StopPc.flushed]
    · cases hstep
  | stopWait =>
    simp only [step] at hstep
    split at hstep
    · split at hstep
      · injection hstep with hstep
        subst hstep
        simp [StopPc.flushed]
      · cases hstep
    · cases hstep
  | stopRecv =>
    simp only [step] at hstep
    split at hstep
    · injection hstep with hstep
      subst hstep
      simp [StopPc.flushed]
    · cases hstep
  | stopWrite =>
    simp only [step] at hstep
    split at hstep
    · injection hstep with hstep
      subst hstep
      simp [StopPc.flushed]
    · cases hstep
  | stopDefault =>
    simp only [step] at hstep
    split at hstep
    · rename_i hpc hbuf
      injection hstep with hstep
      subst hstep
      intro _
      exact hbuf
    · cases hstep
  | stopClose =>
    simp only [step] at hstep
    split at hstep
    · rename_i hpc
      injection hstep with hstep
      subst hstep
      intro _
      exact hd (by simp [hpc, StopPc.flushed])
    · cases hstep

theorem exec_drained (sched : List Action) :
    ∀ (s s1 : Sink), s.Drained → sched.all (fun a => !a.isEnqueue) = true →
      exec s sched = some s1 → s1.Drained := by
  induction sched with
  | nil =>
    intro s s1 hd _ hexec
    rw [exec_nil] at hexec
    injection hexec with hexec
    subst hexec
    exact hd
  | cons a rest ih =>
    intro s s1 hd hall hexec
    rw [exec_cons] at hexec
    simp only [List.all_cons, Bool.and_eq_true, Bool.not_eq_true'] at hall
    cases hstep : step s a with
    | none => rw [hstep] at hexec; cases hexec
    | some s2 =>
      rw [hstep] at hexec
      exact ih s2 s1 (step_drained s s2 a hd hall.1 hstep) hall.2 hexec

/-- Before `stopOutPut` is called only its first step changes its program
counter. -/
theorem step_notCalled (s s1 : Sink) (a : Action) (hpc : s.stopPc = .notCalled)
    (ha : a ≠ .stopSend) (hstep : step s a = some s1) : s1.stopPc = .notCalled := by
  cases a with
  | stopSend => exact absurd rfl ha
  | enqueue logString =>
    simp only [step] at hstep
    split at hstep
    · injection hstep with hstep; subst hstep; exact hpc
    · cases hstep
  | runRecv =>
    simp only [step] at hstep
    split at hstep
    · injection hstep with hstep; subst hstep; exact hpc
    · cases hstep
  | runWrite =>
    simp only [step] at hstep
    split at hstep
    · injection hstep with hstep; subst hstep; exact hpc
    · cases hstep
  | runControl =>
    simp only [step] at hstep
    split at hstep
    · split at hstep <;>
      · injection hstep with hstep; subst hstep; exact hpc
    · cases hstep
  | stopWait => simp [step, hpc] at hstep
  | stopRecv => simp [step, hpc] at hstep
  | stopWrite => simp [step, hpc] at hstep
  | stopDefault => simp [step, hpc] at hstep
  | stopClose => simp [step, hpc] at hstep

/-- When no line is enqueued after stop begins, the channel is empty once the
flush loop has seen it empty. -/
theorem exec_noEnqueue_drained (sched : List Action) :
    ∀ (s s1 : Sink), s.stopPc = .notCalled → noEnqueueAfterStop sched = true →
      exec s sched = some s1 → s1.Drained := by
  induction sched with
  | nil =>
    intro s s1 hpc _ hexec
    rw [exec_nil] at hexec
    injection hexec with hexec
    subst hexec
    simp [Sink.Drained, hpc, StopPc.flushed]
  | cons a rest ih =>
    intro s s1 hpc hno hexec
    rw [exec_cons] at hexec
    cases hstep : step s a with
    | none => rw [hstep] at hexec; cases hexec
    | some s2 =>
      rw [hstep] at hexec
      by_cases ha : a = .stopSend
      · subst ha
        have hd : s2.Drained := by
          simp only [step] at hstep
          split at hstep
          · injection hstep with hstep
            subst hstep
            simp [Sink.Drained, StopPc.flushed]
          · cases hstep
        exact exec_drained rest s2 s1 hd (by simpa [noEnqueueAfterStop] using hno) hexec
      · have hno2 : noEnqueueAfterStop rest = true := by
          cases a <;> first | exact absurd rfl ha | simpa [noEnqueueAfterStop] using hno
        exact ih s2 s1 (step_notCalled s s2 a hpc ha hstep) hno2 hexec

theorem startedSink_inv (file : Nat) (logPath logFile : String) (flag : Nat)
    (isRotate : Bool) :
    (startedSink (newHandle file logPath logFile flag isRotate)).Inv [] := by
  simp [Sink.Inv, startedSink, newHandle, LogHandle.startOutPut, RunPc.inHand, RunPc.live,
    StopPc.inHand, StopPc.flushing]

/-- C2. Drain on stop. From a freshly created and started sink, along every
schedule of producer sends, `run` steps and `stopOutPut` steps (no rotation)
in which no line is enqueued after `stopOutPut` has begun: when `stopOutPut`
has returned the channel is empty, the lines written to the destination are
exactly the enqueued lines in enqueue order, and the destination is closed.
The number of enqueued lines is not bounded by the capacity of the channel. -/
theorem stopOutPut_drains (file : Nat) (logPath logFile : String) (flag : Nat)
    (isRotate : Bool) (sched : List Action) (s : Sink)
    (hexec : exec (startedSink (newHandle file logPath logFile flag isRotate)) sched = some s)
    (hno : noEnqueueAfterStop sched = true)
    (hret : s.stopPc = .returned) :
    s.handle.logBuffer = [] ∧ s.written = enqueued sched ∧ s.closed = true := by
  have hinv := exec_inv sched _ s [] (startedSink_inv file logPath logFile flag isRotate) hexec
  have hdr := exec_noEnqueue_drained sched _ s rfl hno hexec
  obtain ⟨h1, _, h3, h4⟩ := hinv
  have hbuf : s.handle.logBuffer = [] := hdr (by simp [hret, StopPc.flushed])
  have hl : s.runPc.live = false := h3 (by simp [hret, StopPc.flushing])
  have hr : s.runPc.inHand = [] := by
    cases hrp : s.runPc <;> simp_all [RunPc.inHand, RunPc.live]
  refine ⟨hbuf, ?_, h4 hret⟩
  simpa [hbuf, hr, hret, StopPc.inHand] using h1

/-- The write cycle of `drainSchedule` from a state whose channel is empty. -/
theorem exec_cycles (lines : List String) :
    ∀ s : Sink, s.runPc = .atSelect → s.handle.logBuffer = [] →
      exec s (writeCycles lines) =
        some { s with written := s.written ++ lines } := by
  induction lines with
  | nil => intro s _ _; simp [exec_nil, writeCycles]
  | cons l rest ih =>
    intro s hpc hbuf
    obtain ⟨⟨buf, ctl, file, lf, flag, rot, running, wg⟩, written, closed, rpc, spc⟩ := s
    simp only at hpc hbuf
    subst hpc hbuf
    simp only [writeCycles, exec_cons]
    simp only [step, List.length_nil, MAX_LOG_BUFFER_SIZE, Nat.zero_lt_succ, if_true,
      LogHandle.send, List.nil_append, Option.some_bind, Nat.lt_add_one, Nat.ofNat_pos]
    rw [ih _ rfl rfl]
    simp

theorem exec_append (s : Sink) (xs ys : List Action) :
    exec s (xs ++ ys) = (exec s xs).bind (fun s1 => exec s1 ys) := by
  simp [exec, List.foldlM_append, Option.bind_eq_bind]

theorem enqueued_cycles (lines : List String) (tail : List Action) :
    enqueued (writeCycles lines ++ tail) = lines ++ enqueued tail := by
  induction lines with
  | nil => simp [writeCycles]
  | cons l rest ih =>
    show enqueued (.enqueue l :: .runRecv :: .runWrite :: (writeCycles rest ++ tail)) = _
    simp only [enqueued, ih, List.cons_append]

theorem noEnqueueAfterStop_cycles (lines : List String) (tail : List Action) :
    noEnqueueAfterStop (writeCycles lines ++ tail) = noEnqueueAfterStop tail := by
  induction lines with
  | nil => simp [writeCycles]
  | cons l rest ih =>
    show noEnqueueAfterStop
      (.enqueue l :: .runRecv :: .runWrite :: (writeCycles rest ++ tail)) = _
    simp only [noEnqueueAfterStop, ih]

/-- Every list of lines, of any length, can be enqueued and the sink then be
stopped: `stopOutPut` returns. -/
theorem stopOutPut_returns (file : Nat) (logPath logFile : String) (flag : Nat)
    (isRotate : Bool) (lines : List String) :
    ∃ s, exec (startedSink (newHandle file logPath logFile flag isRotate))
        (drainSchedule lines) = some s ∧
      s.stopPc = .returned ∧ enqueued (drainSchedule lines) = lines ∧
      noEnqueueAfterStop (drainSchedule lines) = true := by
  refine ⟨{ handle := newHandle file logPath logFile flag isRotate, written := lines,
             closed := true, runPc := .exited, stopPc := .returned }, ?_, ?_, ?_, ?_⟩
  · unfold drainSchedule
    rw [exec_append, exec_cycles lines _ (by simp [startedSink, LogHandle.startOutPut, newHandle])
      (by simp [startedSink, LogHandle.startOutPut, newHandle])]
    simp [exec_cons, exec_nil, step, startedSink, LogHandle.startOutPut, newHandle,
      LOG_CONTROL_STOP]
  · rfl
  · simp [drainSchedule, enqueued_cycles, enqueued]
  · simp [drainSchedule, noEnqueueAfterStop_cycles, noEnqueueAfterStop, Action.isEnqueue]

/-- Witness of C2: two lines, the second still queued when stop begins and
flushed by the stop path. -/
theorem stopOutPut_drains_witness :
    exec (startedSink (newHandle 3 "./logs" "test.log" NORMAL_LOG_FLAG true)) demoSchedule =
      some demoFinal ∧
    noEnqueueAfterStop demoSchedule = true ∧ demoFinal.stopPc = .returned ∧
    demoFinal.handle.logBuffer = [] ∧ demoFinal.written = enqueued demoSchedule ∧
    demoFinal.closed = true :=
  ⟨by decide, by decide, rfl,
   stopOutPut_drains 3 "./logs" "test.log" NORMAL_LOG_FLAG true demoSchedule demoFinal
    (by decide) (by decide) rfl⟩

/-! ## Rotation: proofs -/

/-- The loop condition `index < math.MinInt64` is false from the first
iteration on: the body never runs. -/
theorem findFileLoop_none (notExist : String → Bool) (filePathName fileSuffix : String)
    (index : Int) (h : MinInt64 ≤ index) :
    findFileLoop notExist filePathName fileSuffix index = none := by
  rw [findFileLoop]
  simp [not_lt.mpr h]

/-- `findFile` returns the candidate whatever exists. -/
theorem findFile_eq (notExist : String → Bool) (filePath fileName fileSuffix : String) :
    findFile notExist filePath fileName fileSuffix =
      filePath ++ "/" ++ fileName ++ "." ++ fileSuffix := by
  simp only [findFile]
  rw [findFileLoop_none _ _ _ 0 (by decide)]
  simp

/-- C3 (code defect). With `./logs/test.log.2024030509` present and no other
file, `findFile` returns that very path, the path of an existing file,
although the suffixed name `./logs/test.log.2024030509.0` is unused and is
what the specified search yields: the loop over the suffixes is bounded by
`math.MinInt64` and never runs. -/
theorem findFile_returns_existing :
    findFile demoNotExist "./logs" "test.log" "2024030509" = "./logs/test.log.2024030509" ∧
    demoNotExist "./logs/test.log.2024030509" = false ∧
    demoNotExist "./logs/test.log.2024030509.0" = true ∧
    specRotatedName demoNotExist "./logs/test.log.2024030509" 1 =
      some "./logs/test.log.2024030509.0" := by
  refine ⟨?_, by decide, by decide, by decide⟩
  rw [findFile_eq]
  decide

/-- C4 (code defect). Invoked at 2024-03-05T00:05:00 the code computes the
label `2024030523`, an hour of the same day that has not begun, where the
previous completed hour is `2024030423`; at 10:05:00 it computes `2024030509`. -/
theorem rotateLabel_hour_zero :
    rotateLabel ⟨2024, 3, 5, 0, 5, 0⟩ = "2024030523" ∧
    specPreviousHourLabel ⟨2024, 3, 5, 0, 5, 0⟩ = "2024030423" ∧
    Time.valid ⟨2024, 3, 5, 0, 5, 0⟩ = true ∧
    rotateLabel ⟨2024, 3, 5, 10, 5, 0⟩ = "2024030509" := by
  decide

theorem createLivePath_ne (logPath logFile : String) :
    createLivePath logPath logFile ≠ logPath ++ "/" ++ logFile := by
  intro h
  have hlen := congrArg String.length h
  simp [createLivePath, String.length_append] at hlen
  exact absurd hlen (by decide)

/-- C8 (code defect). `CreateFileLogHandle` opens `logPath + logFile`, without
a separator, while `doRotate` renames from and reopens `logPath/logFile`: the
two paths differ for every `logPath` and `logFile`; for the arguments `init`
passes they are `./logstest.log` and `./logs/test.log`. -/
theorem live_path_mismatch (w : World) (logPath logFile : String) (flag : Nat)
    (isRotate : Bool) :
    CreateFileLogHandle none w logPath logFile flag isRotate =
      some (newHandle w.files.length logPath logFile flag isRotate,
            { files := w.files ++ [true],
              calls := w.calls ++ [.openFile (logPath ++ logFile)],
              stderr := w.stderr }) ∧
    rotateLivePath (newHandle w.files.length logPath logFile flag isRotate) =
      logPath ++ "/" ++ logFile ∧
    logPath ++ logFile ≠ logPath ++ "/" ++ logFile ∧
    createLivePath "./logs" "test.log" = "./logstest.log" ∧
    rotateLivePath (newHandle 3 "./logs" "test.log" NORMAL_LOG_FLAG true) = "./logs/test.log" := by
  refine ⟨rfl, rfl, createLivePath_ne logPath logFile, by decide, by decide⟩

/-- C5. Rotation failure handling. With rotation enabled and the handle of the
sink open, whatever `os.Rename` and `os.OpenFile` answer: `doRotate` renames
the live path and then opens the live path, whether or not the rename
failed; when the open fails the sink is unchanged and no handle is closed;
when the open succeeds the old handle is closed once, after the open, and
the sink holds the new handle; in every case the handle the sink holds
afterwards is open. -/
theorem doRotate_failure_handling (env : RotateEnv) (h : LogHandle) (w : World)
    (hrot : h.isRotate = true) (hopen : w.isOpen h.file = true) :
    (∃ target, (h.doRotate env w).2.calls =
      w.calls ++ [.rename (rotateLivePath h) target, .openFile (rotateLivePath h)] ++
        (if env.openErr = none then [.close h.file] else [])) ∧
    (env.openErr ≠ none →
      (h.doRotate env w).1 = h ∧ (h.doRotate env w).2.files = w.files) ∧
    (env.openErr = none →
      (h.doRotate env w).1 = { h with file := w.files.length } ∧
      (h.doRotate env w).1.file ≠ h.file ∧
      (h.doRotate env w).2.isOpen h.file = false) ∧
    (h.doRotate env w).2.isOpen (h.doRotate env w).1.file = true := by
  obtain ⟨now, notExist, renameErr, openErr⟩ := env
  obtain ⟨files, calls, stderr⟩ := w
  simp only [World.isOpen] at hopen
  have hlt : h.file < files.length := by
    by_contra hge
    rw [List.getD_eq_getElem?_getD, List.getElem?_eq_none (by omega)] at hopen
    simp at hopen
  cases renameErr <;> cases openErr <;>
    simp [LogHandle.doRotate, hrot, World.call, World.eprint, World.isOpen, World.close,
      World.opened, World.newFile, hopen, hlt, List.getElem?_set, List.getElem?_append]
  all_goals first
    | omega
    | simpa [List.getD_eq_getElem?_getD, List.getElem?_eq_getElem hlt] using hopen

/-- Witness of C5: the rename and the reopen both fail and the sink keeps its
open handle. -/
theorem doRotate_failure_handling_witness :
    (newHandle 0 "./logs" "test.log" NORMAL_LOG_FLAG true).isRotate = true ∧
    World.isOpen ⟨[true], [], []⟩ 0 = true ∧
    ((newHandle 0 "./logs" "test.log" NORMAL_LOG_FLAG true).doRotate demoRotateEnv
      ⟨[true], [], []⟩).2.isOpen
      ((newHandle 0 "./logs" "test.log" NORMAL_LOG_FLAG true).doRotate demoRotateEnv
        ⟨[true], [], []⟩).1.file = true :=
  ⟨rfl, rfl,
   (doRotate_failure_handling demoRotateEnv
      (newHandle 0 "./logs" "test.log" NORMAL_LOG_FLAG true) ⟨[true], [], []⟩ rfl rfl).2.2.2⟩

/-! ## Line builders: proofs -/

theorem noNewline_append (a b : String) : noNewline (a ++ b) ↔ noNewline a ∧ noNewline b := by
  simp [noNewline, String.data_append]

theorem ite_ne_of_ne {α : Type} (c : Prop) [Decidable c] (a b x : α) (ha : a ≠ x)
    (hb : b ≠ x) : (if c then a else b) ≠ x := by
  split <;> assumption

theorem digitChar_ne_newline (n : Nat) : Nat.digitChar n ≠ '\n' := by
  unfold Nat.digitChar
  repeat (first | exact (by decide) | refine ite_ne_of_ne _ _ _ _ (by decide) ?_)

theorem toDigitsCore_noNewline (fuel : Nat) :
    ∀ (n : Nat) (ds : List Char), '\n' ∉ ds → '\n' ∉ Nat.toDigitsCore 10 fuel n ds := by
  induction fuel with
  | zero => intro n ds h; simpa [Nat.toDigitsCore] using h
  | succ fuel ih =>
    intro n ds h
    have hcons : '\n' ∉ Nat.digitChar (n % 10) :: ds := by
      simp only [List.mem_cons, not_or]
      exact ⟨fun e => digitChar_ne_newline _ e.symm, h⟩
    simp only [Nat.toDigitsCore]
    split
    · exact hcons
    · exact ih _ _ hcons

theorem noNewline_natRepr (n : Nat) : noNewline (Nat.repr n) := by
  simp only [noNewline, Nat.repr, Nat.toDigits, List.asString]
  exact toDigitsCore_noNewline _ _ _ (by simp)

theorem noNewline_toString_int (i : Int) : noNewline (toString i) := by
  cases i with
  | ofNat n => exact noNewline_natRepr n
  | negSucc n =>
    show noNewline ("-" ++ Nat.repr (n + 1))
    rw [noNewline_append]
    exact ⟨by decide, noNewline_natRepr _⟩

theorem noNewline_LOG_LEVEL_STRING (level : Nat) : noNewline (LOG_LEVEL_STRING level) := by
  simp only [LOG_LEVEL_STRING, LOG_LEVEL_STRING_ENTRIES, List.lookup]
  split
  · decide
  · split
    · decide
    · split
      · decide
      · split
        · decide
        · split
          · decide
          · split
            · decide
            · decide

theorem noNewline_pathSplitFile (file : String) (h : noNewline file) :
    noNewline (pathSplitFile file) := by
  simp only [noNewline, pathSplitFile, List.mem_reverse] at *
  intro hm
  exact h (List.mem_reverse.mp ((List.takeWhile_sublist _).mem hm))

theorem noNewline_replaceNewlines (msg : String) : noNewline (replaceNewlines msg) := by
  simp only [noNewline, replaceNewlines, List.mem_map, not_exists, not_and]
  intro c _ hc
  split_ifs at hc with h
  · exact absurd hc (by decide)
  · exact h hc

theorem noNewline_fileLine (caller : Caller) (h : noNewline caller.file) :
    noNewline (fileLine caller) := by
  simp only [fileLine, noNewline_append]
  refine ⟨⟨⟨⟨by decide, ?_⟩, by decide⟩, ?_⟩, by decide⟩
  · apply noNewline_pathSplitFile
    split_ifs
    · decide
    · exact h
  · exact noNewline_toString_int _

theorem noNewline_intercalate_go (sep : String) (hsep : noNewline sep) (xs : List String) :
    ∀ acc : String, noNewline acc → (∀ x ∈ xs, noNewline x) →
      noNewline (String.intercalate.go acc sep xs) := by
  induction xs with
  | nil => intro acc hacc _; simpa [String.intercalate.go] using hacc
  | cons x rest ih =>
    intro acc hacc hxs
    simp only [String.intercalate.go]
    apply ih
    · rw [noNewline_append, noNewline_append]
      exact ⟨⟨hacc, hsep⟩, hxs x (List.mem_cons_self _ _)⟩
    · intro y hy
      exact hxs y (List.mem_cons_of_mem _ hy)

theorem noNewline_intercalate (sep : String) (hsep : noNewline sep) (xs : List String)
    (hxs : ∀ x ∈ xs, noNewline x) : noNewline (sep.intercalate xs) := by
  cases xs with
  | nil => simp [String.intercalate, noNewline]
  | cons x rest =>
    simp only [String.intercalate]
    exact noNewline_intercalate_go sep hsep rest x (hxs x (List.mem_cons_self _ _))
      (fun y hy => hxs y (List.mem_cons_of_mem _ hy))

theorem noNewline_contextTags (prefixKey : List (String × String))
    (h : ∀ kv ∈ prefixKey, noNewline kv.1 ∧ noNewline kv.2) :
    ∀ x ∈ contextTags prefixKey, noNewline x := by
  intro x hx
  simp only [contextTags, List.mem_map] at hx
  obtain ⟨kv, hkv, rfl⟩ := hx
  simp only [noNewline_append]
  exact ⟨⟨⟨⟨by decide, (h kv hkv).1⟩, by decide⟩, (h kv hkv).2⟩, by decide⟩

/-- A text without line break followed by one line break is one physical line. -/
theorem one_line (body : String) (h : noNewline body) :
    newlineCount (body ++ "\n") = 1 ∧ (body ++ "\n").data.getLast? = some '\n' := by
  constructor
  · simp only [newlineCount, String.data_append, List.count_append]
    rw [List.count_eq_zero_of_not_mem h]
    decide
  · simp only [String.data_append]
    exact List.getLast?_concat _

theorem noNewline_loggerPrefixes : ∀ p ∈ loggerPrefixes, noNewline p := by
  decide

/-- Counterexample to C7: a context value with a line break gives a record of
two physical lines, with a timestamp and a file name free of line breaks. -/
theorem BuildLog_context_newline :
    noNewline "2024-03-05 10:05:00" ∧ noNewline "/srv/app/main.go" ∧
    newlineCount (DefaultLogBuilder.BuildLog "2024-03-05 10:05:00" ⟨"/srv/app/main.go", 12, true⟩
      LOG_LEVEL_INFO [("LogId", "7"), ("model", "a\nb")] "m") = 2 := by
  decide

/-- C7 (amended). When the timestamp, the call-site file name and the rendered
keys and values of the context map hold no line break, the line of
`DefaultLogBuilder.BuildLog` holds exactly one line break, as its last
character, and ends with the message in which every line break is replaced
by a space; the same holds for `buildLog` with every prefix the `Logger`
methods pass; the message `a\nb` is rendered as `a b`. -/
theorem record_is_one_line (nowTime : String) (caller : Caller) (logLevel : Nat)
    (prefixKey : List (String × String)) (msg : String)
    (hts : noNewline nowTime) (hfile : noNewline caller.file)
    (hctx : ∀ kv ∈ prefixKey, noNewline kv.1 ∧ noNewline kv.2) :
    (newlineCount (DefaultLogBuilder.BuildLog nowTime caller logLevel prefixKey msg) = 1 ∧
      (DefaultLogBuilder.BuildLog nowTime caller logLevel prefixKey msg).data.getLast? =
        some '\n' ∧
      ∃ head, noNewline head ∧
        DefaultLogBuilder.BuildLog nowTime caller logLevel prefixKey msg =
          head ++ replaceNewlines msg ++ "\n") ∧
    (∀ p ∈ loggerPrefixes,
      newlineCount (buildLog nowTime caller p msg) = 1 ∧
      (buildLog nowTime caller p msg).data.getLast? = some '\n' ∧
      buildLog nowTime caller p msg =
        p ++ " " ++ nowTime ++ " " ++ fileLine caller ++ " " ++ replaceNewlines msg ++ "\n") ∧
    (replaceNewlines msg).data = msg.data.map (fun c => if c = '\n' then ' ' else c) ∧
    replaceNewlines "a\nb" = "a b" := by
  have hsp : noNewline " " := by decide
  have hfl := noNewline_fileLine caller hfile
  have hmsg := noNewline_replaceNewlines msg
  have htags := noNewline_intercalate " " hsp _ (noNewline_contextTags prefixKey hctx)
  have hhead : noNewline (LOG_LEVEL_STRING logLevel ++ " " ++ nowTime ++ " " ++
      fileLine caller ++ " " ++ " ".intercalate (contextTags prefixKey) ++ " ") := by
    simp only [noNewline_append]
    exact ⟨⟨⟨⟨⟨⟨⟨noNewline_LOG_LEVEL_STRING _, hsp⟩, hts⟩, hsp⟩, hfl⟩, hsp⟩, htags⟩, hsp⟩
  refine ⟨?_, ?_, rfl, by decide⟩
  · have hbody : noNewline (LOG_LEVEL_STRING logLevel ++ " " ++ nowTime ++ " " ++
        fileLine caller ++ " " ++ " ".intercalate (contextTags prefixKey) ++ " " ++
        replaceNewlines msg) := by
      rw [noNewline_append]
      exact ⟨hhead, hmsg⟩
    exact ⟨(one_line _ hbody).1, (one_line _ hbody).2, _, hhead, rfl⟩
  · intro p hp
    have hbody : noNewline (p ++ " " ++ nowTime ++ " " ++ fileLine caller ++ " " ++
        replaceNewlines msg) := by
      simp only [noNewline_append]
      exact ⟨⟨⟨⟨⟨⟨noNewline_loggerPrefixes p hp, hsp⟩, hts⟩, hsp⟩, hfl⟩, hsp⟩, hmsg⟩
    exact ⟨(one_line _ hbody).1, (one_line _ hbody).2, rfl⟩

/-- Witness of C7: a record with two context tags and a message of two lines. -/
theorem record_is_one_line_witness :
    noNewline "2024-03-05 10:05:00" ∧ noNewline "/srv/app/main.go" ∧
    DefaultLogBuilder.BuildLog "2024-03-05 10:05:00" ⟨"/srv/app/main.go", 12, true⟩
      LOG_LEVEL_INFO [("LogId", "7"), ("model", "user")] "a\nb" =
      "[INFO] 2024-03-05 10:05:00 [main.go:12] [LogId:7] [model:user] a b\n" ∧
    newlineCount (DefaultLogBuilder.BuildLog "2024-03-05 10:05:00"
      ⟨"/srv/app/main.go", 12, true⟩ LOG_LEVEL_INFO [("LogId", "7"), ("model", "user")]
      "a\nb") = 1 :=
  ⟨by decide, by decide, by decide,
   (record_is_one_line "2024-03-05 10:05:00" ⟨"/srv/app/main.go", 12, true⟩ LOG_LEVEL_INFO
      [("LogId", "7"), ("model", "user")] "a\nb" (by decide) (by decide) (by decide)).1.1⟩

/-- Counterexample to C9: with an empty context map two spaces stand between
the call site and the message, which is not the layout of `buildLog`. -/
theorem BuildLog_empty_context_two_spaces :
    DefaultLogBuilder.BuildLog "2024-03-05 10:05:00" ⟨"/srv/app/main.go", 12, true⟩
      LOG_LEVEL_INFO [] "m" = "[INFO] 2024-03-05 10:05:00 [main.go:12]  m\n" ∧
    DefaultLogBuilder.BuildLog "2024-03-05 10:05:00" ⟨"/srv/app/main.go", 12, true⟩
      LOG_LEVEL_INFO [] "m" ≠ "[INFO] 2024-03-05 10:05:00 [main.go:12] m\n" ∧
    buildLog "2024-03-05 10:05:00" ⟨"/srv/app/main.go", 12, true⟩
      (LOG_LEVEL_STRING LOG_LEVEL_INFO) "m" = "[INFO] 2024-03-05 10:05:00 [main.go:12] m\n" := by
  decide

/-- C9 (amended). With a nil or empty context map `DefaultLogBuilder.BuildLog`
returns the level tag, the timestamp, the call site, then two spaces (the
empty context segment between its two separators), the message and the line
break: one character more than the layout of `buildLog`, and never equal to
it. With any map the context segment is the `[key:value]` tags of the
entries joined by single spaces. -/
theorem BuildLog_context_segment (nowTime : String) (caller : Caller) (logLevel : Nat)
    (prefixKey : List (String × String)) (msg : String) :
    DefaultLogBuilder.BuildLog nowTime caller logLevel [] msg =
      LOG_LEVEL_STRING logLevel ++ " " ++ nowTime ++ " " ++ fileLine caller ++ "  " ++
        replaceNewlines msg ++ "\n" ∧
    (DefaultLogBuilder.BuildLog nowTime caller logLevel [] msg).length =
      (buildLog nowTime caller (LOG_LEVEL_STRING logLevel) msg).length + 1 ∧
    DefaultLogBuilder.BuildLog nowTime caller logLevel [] msg ≠
      buildLog nowTime caller (LOG_LEVEL_STRING logLevel) msg ∧
    DefaultLogBuilder.BuildLog nowTime caller logLevel prefixKey msg =
      LOG_LEVEL_STRING logLevel ++ " " ++ nowTime ++ " " ++ fileLine caller ++ " " ++
        " ".intercalate (prefixKey.map (fun kv => "[" ++ kv.1 ++ ":" ++ kv.2 ++ "]")) ++ " " ++
        replaceNewlines msg ++ "\n" ∧
    (∀ k1 v1 k2 v2 : String,
      " ".intercalate (contextTags [(k1, v1), (k2, v2)]) =
        "[" ++ k1 ++ ":" ++ v1 ++ "]" ++ " " ++ ("[" ++ k2 ++ ":" ++ v2 ++ "]")) := by
  have hlen : (DefaultLogBuilder.BuildLog nowTime caller logLevel [] msg).length =
      (buildLog nowTime caller (LOG_LEVEL_STRING logLevel) msg).length + 1 := by
    have h1 : " ".length = 1 := by decide
    have h0 : "".length = 0 := by decide
    simp only [DefaultLogBuilder.BuildLog, buildLog, contextTags, String.intercalate,
      String.length_append, List.map_nil, h1, h0]
    omega
  refine ⟨?_, hlen, ?_, rfl, ?_⟩
  · apply String.ext
    simp [DefaultLogBuilder.BuildLog, contextTags, String.intercalate, String.data_append]
  · intro h
    rw [h] at hlen
    omega
  · intro k1 v1 k2 v2
    rfl

end Log
